import Mathlib

/-!
Shallow embedding of the ResumeAI extraction-and-scoring pipeline.

Python dictionaries are modelled as structures whose fields are `Option`s
(absent key = `none`); numeric values (Python ints and floats) are modelled
as `Int`/`Nat`/`ℚ`; functions that can raise are modelled with `Except` /
`Option`.  Regular-expression searches used by the code are implemented
directly as executable scanners over `List Char` that follow the semantics
of each concrete pattern (leftmost match, greedy/lazy quantifiers as they
behave for that pattern).  The character classes `\w`, `\s`, `\d` and the
case folding are modelled over the ASCII range, which covers the fixed
vocabularies and patterns appearing in the source.
-/

namespace ResumeAI

/-- Python regex word character (`\w`, used by `\b`), ASCII range: `[a-zA-Z0-9_]`. -/
def isWordChar (c : Char) : Bool := c.isAlphanum || c == '_'

/-- Python regex whitespace class `\s`, ASCII range: space, `\t`, `\n`, `\r`, `\v`, `\f`. -/
def pySpace (c : Char) : Bool :=
  c == ' ' || c == '\t' || c == '\n' || c == '\r' || c == Char.ofNat 11 || c == Char.ofNat 12

/-- Python `str.lower()` over the ASCII range. -/
def lowerS (s : String) : String := String.mk (s.toList.map Char.toLower)

/-- Word-character test on an optional character; positions outside the string count as non-word. -/
def optWord : Option Char → Bool
  | some c => isWordChar c
  | none => false

/-- A `\b` boundary between two adjacent positions holds iff exactly one side is a word character. -/
def wordBdry (l r : Option Char) : Bool := optWord l != optWord r

/-- Prefix test on character lists. -/
def isPrefixL : List Char → List Char → Bool
  | [], _ => true
  | _ :: _, [] => false
  | a :: as, b :: bs => a == b && isPrefixL as bs

/-- Contiguous-substring test (Python `pat in hay` for strings). -/
def containsSub (hay pat : List Char) : Bool :=
  match hay with
  | [] => isPrefixL pat []
  | c :: t => isPrefixL pat (c :: t) || containsSub t pat

/-- Last character of a list, if any. -/
def lastCharOf : List Char → Option Char
  | [] => none
  | [c] => some c
  | _ :: c :: t => lastCharOf (c :: t)

/-- Match of the literal pattern `\b pat \b` at the current position, given the
previous character (`re.escape`d literal between word boundaries). -/
def matchesWBAt (pat cs : List Char) (prev : Option Char) : Bool :=
  wordBdry prev pat.head? && isPrefixL pat cs && wordBdry (lastCharOf pat) ((cs.drop pat.length).head?)

/-- Scan for `\b pat \b` anywhere in the text (`re.search`), carrying the previous character. -/
def searchWBAux (pat : List Char) : Option Char → List Char → Bool
  | _, [] => false
  | prev, c :: t => matchesWBAt pat (c :: t) prev || searchWBAux pat (some c) t

/-- Search for `re.search(r'\b' + re.escape(pat) + r'\b', text)` as a Boolean. -/
def searchWB (pat : List Char) (text : List Char) : Bool := searchWBAux pat none text

/-- Python `str.strip()` over the ASCII whitespace range. -/
def stripL (cs : List Char) : List Char :=
  ((cs.dropWhile pySpace).reverse.dropWhile pySpace).reverse

/-- Split on a character class, keeping empty pieces (`re.split` with a class of single characters). -/
def splitCh (p : Char → Bool) : List Char → List (List Char)
  | [] => [[]]
  | c :: t =>
    match splitCh p t with
    | h :: r => if p c then [] :: h :: r else (c :: h) :: r
    | [] => [[c]]

/-- Add to a duplicate-free list unless present (Python `set.add`; insertion order kept). -/
def addSet (l : List String) (s : String) : List String := if s ∈ l then l else l ++ [s]

/-- Deduplicate keeping first occurrences (models `list(set(...))` where only the
underlying set matters downstream). -/
def dedupFirst (l : List String) : List String := l.foldl addSet []

/-- Numeric value of a list of decimal digits. -/
def digitsVal (cs : List Char) : Nat := cs.foldl (fun a c => a * 10 + (c.toNat - '0'.toNat)) 0

/-- Python `int(str)`: optional surrounding whitespace, optional sign, at least one digit
(digit-group underscores are not modelled). `none` models a raised `ValueError`. -/
def pyIntParse (s : String) : Option Int :=
  let t := stripL s.toList
  let sign : Int := match t with
    | '-' :: _ => -1
    | _ => 1
  let t2 : List Char := match t with
    | '-' :: r => r
    | '+' :: r => r
    | _ => t
  if !t2.isEmpty && t2.all Char.isDigit then some (sign * (digitsVal t2 : Int)) else none

/-- Case-insensitive literal match consuming the pattern; returns the rest of the input. -/
def matchCI : List Char → List Char → Option (List Char)
  | [], cs => some cs
  | _ :: _, [] => none
  | p :: ps, c :: cs => if c.toLower == p.toLower then matchCI ps cs else none

/-- Greedy `\s*`. -/
def dropSpaces (cs : List Char) : List Char := cs.dropWhile pySpace

/-- Greedy `\s+`: at least one whitespace character, then maximal run. -/
def space1 : List Char → Option (List Char)
  | [] => none
  | c :: t => if pySpace c then some (dropSpaces t) else none

/-- Leftmost-match scan: try the position matcher at every position, earliest success wins. -/
def scanOpt {β : Type} (f : List Char → Option β) : List Char → Option β
  | [] => f []
  | c :: t =>
    match f (c :: t) with
    | some b => some b
    | none => scanOpt f t

/-! ## Scorer data model (src/scorer.py)

`ResumeScorer.score_resume` receives the extracted-record dictionary and the
job-description text.  Only the keys the scorer and ranker read are modelled.
-/

/-- Contact dictionary; only `email` is read by the scorer. -/
structure ContactInfo where
  email : Option String := none
  deriving DecidableEq

/-- Skills dictionary as produced by `SkillsExtractor.extract`. -/
structure SkillsData where
  technical_skills : List String := []
  soft_skills : List String := []
  total_count : Int := 0
  deriving DecidableEq

/-- Experience entry; only the keys read by scorer/ranker are modelled. -/
structure ExpEntry where
  role : Option String := none
  description : Option String := none
  duration_years : Option ℚ := none
  deriving DecidableEq

/-- Education entry; only the keys read by the scorer are modelled. -/
structure EduEntry where
  degree : Option String := none
  field : Option String := none
  deriving DecidableEq

/-- Project entry; only `description` is read by the scorer. -/
structure ProjEntry where
  description : Option String := none
  deriving DecidableEq

/-- Derived summary dictionary. -/
structure SummaryData where
  total_experience_years : Option ℚ := none
  education_level : Option String := none
  deriving DecidableEq

/-- The extracted-record dictionary (`resume_data`); every top-level key optional. -/
structure ResumeData where
  contact : Option ContactInfo := none
  skills : Option SkillsData := none
  experience : Option (List ExpEntry) := none
  education : Option (List EduEntry) := none
  projects : Option (List ProjEntry) := none
  certifications : Option (List String) := none
  summary : Option SummaryData := none
  deriving DecidableEq

/-- Python truthiness of an optional string (`None` and `''` are falsy). -/
def pyTruthyS : Option String → Bool
  | none => false
  | some s => !(s == "")

/-- Python truthiness of an optional list (`None` and `[]` are falsy). -/
def listTruthy {α : Type} : Option (List α) → Bool
  | none => false
  | some l => !l.isEmpty

/-- Keyword-token class from `_extract_keywords`: `[a-zA-Z+#\.]`. -/
def kwClass (c : Char) : Bool := c.isAlpha || c == '+' || c == '#' || c == '.'

/-- Backtracking for the greedy `[a-zA-Z+#\.]{2,}` run followed by `\b`: shrink the
(reversed) consumed run until the trailing boundary holds, keeping at least 2 characters. -/
def kwShrink : List Char → List Char → Option (List Char × List Char)
  | [], _ => none
  | [_], _ => none
  | c :: d :: t, rest =>
    if wordBdry (some c) rest.head? then some (c :: d :: t, rest)
    else kwShrink (d :: t) (c :: rest)

/-- Conservation law for `kwShrink`, used as the termination measure of the keyword scan. -/
theorem kwShrink_spec : ∀ (rev rest r rest2 : List Char),
    kwShrink rev rest = some (r, rest2) →
    r.length + rest2.length = rev.length + rest.length ∧ 2 ≤ r.length := by
  intro rev
  induction rev with
  | nil => intro rest r rest2 h; simp [kwShrink] at h
  | cons c t ih =>
    intro rest r rest2 h
    cases t with
    | nil => simp [kwShrink] at h
    | cons d t2 =>
      rw [kwShrink] at h
      by_cases hb : wordBdry (some c) rest.head? = true
      · rw [if_pos hb] at h
        simp only [Option.some.injEq, Prod.mk.injEq] at h
        obtain ⟨h1, h2⟩ := h
        subst h1; subst h2
        simp [List.length_cons]
      · rw [if_neg hb] at h
        have := ih (c :: rest) r rest2 h
        simp [List.length_cons] at this ⊢
        omega

/-- Scanner for `re.findall(r'\b[a-zA-Z][a-zA-Z+#\.]{2,}\b', text)` from
`ResumeScorer._extract_keywords`: leftmost, non-overlapping matches; the greedy
run backtracks through `kwShrink` until the trailing boundary holds. -/
def kwScan (prev : Option Char) (cs : List Char) : List (List Char) :=
  match cs with
  | [] => []
  | c :: rest =>
    if (!optWord prev) && c.isAlpha then
      let run := rest.takeWhile kwClass
      let rest2 := rest.drop run.length
      match h : kwShrink run.reverse rest2 with
      | some (rev, restN) => (c :: rev.reverse) :: kwScan (some (rev.headD c)) restN
      | none => kwScan (some c) rest
    else kwScan (some c) rest
termination_by cs.length
decreasing_by
  · have hspec := kwShrink_spec run.reverse rest2 rev restN h
    have h1 : run.length ≤ t.length := (List.takeWhile_sublist kwClass).length_le
    have h2 : rest2.length = t.length - run.length := by
      simp [rest2]
    simp only [List.length_reverse] at hspec
    simp only [List.length_cons]
    omega
  · simp
  · simp

/-- `ResumeScorer._extract_keywords`: token scan, stopword filter, then `list(set(...))`
(the set's iteration order is arbitrary in Python; only the set matters downstream). -/
def extract_keywords (text : String) : List String :=
  let words := (kwScan none text.toList).map String.mk
  let stop_words : List String := ["the", "and", "or", "but", "in", "on", "at", "to", "for", "of", "with", "a", "an"]
  dedupFirst (words.filter (fun w => !stop_words.contains (lowerS w)))

/-- `ResumeScorer._calculate_keyword_score`. -/
def calculate_keyword_score (resume_text jd_text : String) : ℚ :=
  let jd_keywords := extract_keywords jd_text
  let resume_lower := lowerS resume_text
  if jd_keywords.isEmpty then 50
  else
    let matchCount := (jd_keywords.filter (fun k => containsSub resume_lower.toList (lowerS k).toList)).length
    min 100 ((matchCount : ℚ) / (jd_keywords.length : ℚ) * 100)

/-- `ResumeScorer._prepare_resume_text`. -/
def prepare_resume_text (r : ResumeData) : String :=
  let parts : List String :=
    (match r.skills with
     | some sk => [String.intercalate " " (sk.technical_skills ++ sk.soft_skills)]
     | none => [])
    ++ (match r.experience with
        | some exps => exps.foldr (fun e acc => (e.role.getD "") :: (e.description.getD "") :: acc) []
        | none => [])
    ++ (match r.education with
        | some edus => edus.foldr (fun e acc => (e.degree.getD "") :: (e.field.getD "") :: acc) []
        | none => [])
    ++ (match r.projects with
        | some ps => ps.map (fun p => p.description.getD "")
        | none => [])
  String.intercalate " " parts

/-- The fixed `skill_keywords` list of `_calculate_skills_match`. -/
def jd_skill_keywords : List String :=
  ["python", "java", "javascript", "react", "sql", "aws", "docker",
   "kubernetes", "machine learning", "data analysis", "tensorflow"]

/-- `ResumeScorer._calculate_skills_match`.  The intersection size is computed over
the duplicate-free `jd_skills` list, which equals the Python set intersection size. -/
def calculate_skills_match (r : ResumeData) (jd_text : String) : ℚ :=
  match r.skills with
  | none => 0
  | some sk =>
    let resume_skills := dedupFirst ((sk.technical_skills ++ sk.soft_skills).map lowerS)
    let jd_lower := lowerS jd_text
    let jd_skills := jd_skill_keywords.filter (fun s => containsSub jd_lower.toList s.toList)
    if jd_skills.isEmpty then 70
    else
      let matching := (jd_skills.filter (fun s => s ∈ resume_skills)).length
      min 100 ((matching : ℚ) / (jd_skills.length : ℚ) * 100)

/-- Position matcher for `(\d+)\+?\s*years?\s+(?:of\s+)?experience` (IGNORECASE). -/
def tryReq1At (cs : List Char) : Option Nat :=
  let ds := cs.takeWhile Char.isDigit
  if ds.isEmpty then none
  else
    let r1 := cs.drop ds.length
    let r2 := match r1 with
      | '+' :: t => t
      | _ => r1
    let r3 := dropSpaces r2
    match matchCI "year".toList r3 with
    | none => none
    | some r4 =>
      let r5 := match r4 with
        | c :: t => if c.toLower == 's' then t else c :: t
        | [] => []
      match space1 r5 with
      | none => none
      | some r6 =>
        let r7 := match matchCI "of".toList r6 with
          | some t =>
            match space1 t with
            | some t2 => t2
            | none => r6
          | none => r6
        match matchCI "experience".toList r7 with
        | some _ => some (digitsVal ds)
        | none => none

/-- Position matcher for `(?:minimum|at least)\s+(\d+)\s*years?` (IGNORECASE). -/
def tryReq2At (cs : List Char) : Option Nat :=
  let afterKw := match matchCI "minimum".toList cs with
    | some t => some t
    | none => matchCI "at least".toList cs
  match afterKw with
  | none => none
  | some t =>
    match space1 t with
    | none => none
    | some t2 =>
      let ds := t2.takeWhile Char.isDigit
      if ds.isEmpty then none
      else
        let t3 := dropSpaces (t2.drop ds.length)
        match matchCI "year".toList t3 with
        | some _ => some (digitsVal ds)
        | none => none

/-- Position matcher for `(\d+)-(\d+)\s*years?` (IGNORECASE); group 1 is returned. -/
def tryReq3At (cs : List Char) : Option Nat :=
  let ds := cs.takeWhile Char.isDigit
  if ds.isEmpty then none
  else
    match cs.drop ds.length with
    | '-' :: t =>
      let ds2 := t.takeWhile Char.isDigit
      if ds2.isEmpty then none
      else
        let t2 := dropSpaces (t.drop ds2.length)
        match matchCI "year".toList t2 with
        | some _ => some (digitsVal ds)
        | none => none
    | _ => none

/-- `ResumeScorer._extract_required_experience`: three patterns tried in order,
first match wins, default 0. -/
def extract_required_experience (jd_text : String) : Nat :=
  match scanOpt tryReq1At jd_text.toList with
  | some n => n
  | none =>
    match scanOpt tryReq2At jd_text.toList with
    | some n => n
    | none => (scanOpt tryReq3At jd_text.toList).getD 0

/-- `ResumeScorer._calculate_experience_score`. -/
def calculate_experience_score (r : ResumeData) (jd_text : String) : ℚ :=
  match r.experience with
  | none => 30
  | some [] => 30
  | some (_ :: _) =>
    let required_years := extract_required_experience jd_text
    let total_years := (r.summary.bind (·.total_experience_years)).getD 0
    if required_years = 0 then min 100 (50 + total_years * 10)
    else if total_years ≥ (required_years : ℚ) then 100
    else if total_years ≥ (required_years : ℚ) * 0.7 then 80
    else if total_years ≥ (required_years : ℚ) * 0.5 then 60
    else 40

/-- `ResumeScorer._calculate_format_score`. -/
def calculate_format_score (r : ResumeData) : ℚ :=
  let score : ℚ := 100
  let score := if pyTruthyS (r.contact.bind (·.email)) then score else score - 15
  let score := if listTruthy r.experience then score else score - 20
  let score := if listTruthy r.education then score else score - 15
  let score := if listTruthy (r.skills.map (·.technical_skills)) then score else score - 20
  let score := if listTruthy r.projects then score + 5 else score
  let score := if listTruthy r.certifications then score + 5 else score
  max 0 (min 100 score)

/-- `ResumeScorer._get_grade`. -/
def get_grade (score : ℚ) : String :=
  if score ≥ 90 then "A+"
  else if score ≥ 80 then "A"
  else if score ≥ 70 then "B"
  else if score ≥ 60 then "C"
  else if score ≥ 50 then "D"
  else "F"

/-- `ResumeScorer._get_match_status`. -/
def get_match_status (score : ℚ) : String :=
  if score ≥ 85 then "Strong Match - Highly Recommended"
  else if score ≥ 70 then "Good Match - Recommended"
  else if score ≥ 55 then "Moderate Match - Consider"
  else "Weak Match - Not Recommended"

/-- Round half to even at integer precision (Python `round` tie behaviour, over `ℚ`). -/
def roundHalfEven (x : ℚ) : ℤ :=
  let f := ⌊x⌋
  let r := x - f
  if r < 1 / 2 then f
  else if 1 / 2 < r then f + 1
  else if f % 2 = 0 then f else f + 1

/-- Python `round(x, 2)` modelled over `ℚ`. -/
def round2 (x : ℚ) : ℚ := (roundHalfEven (x * 100) : ℚ) / 100

/-- The `breakdown` dictionary of a score result. -/
structure ScoreBreakdown where
  keyword_score : ℚ
  skills_score : ℚ
  experience_score : ℚ
  semantic_score : ℚ
  format_score : ℚ
  deriving DecidableEq

/-- The dictionary `ResumeScorer.score_resume` builds as `result`
(keys: `final_score`, `breakdown`, `grade`, `status`). -/
structure ScoreResult where
  final_score : ℚ
  breakdown : ScoreBreakdown
  grade : String
  status : String
  deriving DecidableEq

/-- The KeyError raised when a dictionary without a `total_score` key is indexed with it. -/
def keyErrorTotalScore (_ : ScoreResult) : String := "KeyError: 'total_score'"

/-- `ResumeScorer.score_resume`.  The semantic sub-score is produced by an external
library (sentence-transformers embeddings, or the scikit-learn TF-IDF fallback,
both over floats); it enters the model as the parameter `semantic_score`.  After
building `result`, the method's closing log statement interpolates
`result['total_score']` — a key `result` does not contain (its key is
`final_score`) — so the call raises `KeyError` before returning. -/
def score_resume (resume_data : ResumeData) (jd_text : String) (semantic_score : ℚ) :
    Except String ScoreResult :=
  let resume_text := prepare_resume_text resume_data
  let keyword_score := calculate_keyword_score resume_text jd_text
  let skills_score := calculate_skills_match resume_data jd_text
  let experience_score := calculate_experience_score resume_data jd_text
  let format_score := calculate_format_score resume_data
  let total_score :=
    keyword_score * 0.30 +
    skills_score * 0.25 +
    experience_score * 0.20 +
    semantic_score * 0.15 +
    format_score * 0.10
  let result : ScoreResult :=
    { final_score := round2 total_score
      breakdown :=
        { keyword_score := round2 keyword_score
          skills_score := round2 skills_score
          experience_score := round2 experience_score
          semantic_score := round2 semantic_score
          format_score := round2 format_score }
      grade := get_grade total_score
      status := get_match_status total_score }
  Except.error (keyErrorTotalScore result)

/-! ## Skills extractor (src/extractors/skills_extractor.py) -/

/-- The `technical_skills` vocabulary of `SkillsExtractor`, in source order. -/
def technical_skills_vocab : List String :=
  ["python", "java", "javascript", "typescript", "c++", "c#", "ruby", "go", "rust",
   "php", "swift", "kotlin", "scala", "r", "matlab", "perl", "shell", "bash",
   "html", "css", "react", "angular", "vue", "nodejs", "express", "django", "flask",
   "fastapi", "spring", "asp.net", "jquery", "bootstrap", "tailwind",
   "sql", "mysql", "postgresql", "mongodb", "redis", "cassandra", "dynamodb",
   "oracle", "sqlite", "elasticsearch", "neo4j",
   "machine learning", "deep learning", "tensorflow", "pytorch", "keras", "scikit-learn",
   "pandas", "numpy", "nlp", "computer vision", "neural networks", "transformers",
   "bert", "gpt", "llm", "reinforcement learning", "xgboost", "lightgbm",
   "aws", "azure", "gcp", "docker", "kubernetes", "jenkins", "gitlab", "github actions",
   "terraform", "ansible", "ci/cd", "devops", "linux", "unix",
   "data analysis", "data visualization", "tableau", "power bi", "matplotlib",
   "seaborn", "plotly", "statistical analysis", "hypothesis testing", "a/b testing",
   "git", "jira", "confluence", "postman", "swagger", "graphql", "rest api",
   "microservices", "agile", "scrum", "kafka", "rabbitmq", "spark", "hadoop"]

/-- The `soft_skills` vocabulary of `SkillsExtractor`, in source order. -/
def soft_skills_vocab : List String :=
  ["leadership", "communication", "teamwork", "problem solving", "analytical",
   "critical thinking", "creativity", "adaptability", "time management",
   "project management", "collaboration", "presentation", "negotiation"]

/-- The `skill_aliases` map (surface form, canonical form), in source order. -/
def skill_aliases : List (String × String) :=
  [("js", "javascript"), ("ts", "typescript"), ("k8s", "kubernetes"),
   ("ml", "machine learning"), ("dl", "deep learning"), ("cv", "computer vision"),
   ("tf", "tensorflow"), ("sklearn", "scikit-learn"), ("np", "numpy"), ("pd", "pandas")]

/-- Scan for the `\n\s*\n` lookahead body after its leading newline. -/
def nnScan : List Char → Bool
  | [] => false
  | c :: t => if c == '\n' then true else if pySpace c then nnScan t else false

/-- Scan for the `[a-z]+:` part of the `\n[A-Z][a-z]+:` lookahead (under
`re.IGNORECASE` both classes match any ASCII letter). -/
def headerEnd : List Char → Bool
  | [] => false
  | c :: t => if c == ':' then true else if c.isAlpha then headerEnd t else false

/-- Lookahead alternative `\n\s*\n`. -/
def lookNN : List Char → Bool
  | '\n' :: t => nnScan t
  | _ => false

/-- Lookahead alternative `\n[A-Z][a-z]+:` (case classes widened by IGNORECASE). -/
def lookHeader : List Char → Bool
  | '\n' :: d :: e :: t => d.isAlpha && e.isAlpha && headerEnd t
  | _ => false

/-- The section-terminating lookahead `(?=\n\s*\n|\n[A-Z][a-z]+:|\Z)`. -/
def lookAheadSec (rest : List Char) : Bool := rest.isEmpty || lookNN rest || lookHeader rest

/-- Lazy group `(.+?)` before `lookAheadSec`: consume at least one character and stop
at the first position where the lookahead holds (the `\Z` alternative always holds
at the end, so the group always completes). -/
def lazyGroup : List Char → List Char
  | [] => []
  | c :: rest => if lookAheadSec rest then [c] else c :: lazyGroup rest

/-- Consume `skills?` case-insensitively (the optional greedy `s`). -/
def skillsWordTail (cs : List Char) : Option (List Char) :=
  match matchCI "skill".toList cs with
  | none => none
  | some r =>
    match r with
    | c :: t => some (if c.toLower == 's' then t else c :: t)
    | [] => some []

/-- The `[:\s]` class. -/
def colonSpace (c : Char) : Bool := c == ':' || pySpace c

/-- Consume the greedy `[:\s]+` then the lazy group.  When the greedy run reaches the
end of the input the engine backtracks one character so the group can match it. -/
def secTail (rest1 : List Char) : Option (List Char) :=
  let run := rest1.takeWhile colonSpace
  if run.isEmpty then none
  else
    match rest1.drop run.length with
    | c :: t => some (lazyGroup (c :: t))
    | [] =>
      match run.reverse with
      | l :: _ :: _ => some [l]
      | _ => none

/-- Position matcher for `(?:technical\s+)?skills?[:\s]+(.+?)(?=…)` (IGNORECASE, DOTALL). -/
def tryPat1At (cs : List Char) : Option (List Char) :=
  let afterHdr :=
    match matchCI "technical".toList cs with
    | some r =>
      match space1 r with
      | some r2 =>
        match skillsWordTail r2 with
        | some r3 => some r3
        | none => skillsWordTail cs
      | none => skillsWordTail cs
    | none => skillsWordTail cs
  match afterHdr with
  | none => none
  | some rest1 => secTail rest1

/-- Position matcher for `(?:core\s+)?competencies[:\s]+(.+?)(?=…)`. -/
def tryPat2At (cs : List Char) : Option (List Char) :=
  let afterHdr :=
    match matchCI "core".toList cs with
    | some r =>
      match space1 r with
      | some r2 =>
        match matchCI "competencies".toList r2 with
        | some r3 => some r3
        | none => matchCI "competencies".toList cs
      | none => matchCI "competencies".toList cs
    | none => matchCI "competencies".toList cs
  match afterHdr with
  | none => none
  | some rest1 => secTail rest1

/-- Position matcher for `expertise[:\s]+(.+?)(?=…)`. -/
def tryPat3At (cs : List Char) : Option (List Char) :=
  match matchCI "expertise".toList cs with
  | some r => secTail r
  | none => none

/-- `SkillsExtractor._extract_skills_section`: three patterns in order, leftmost match,
group 1; empty string when none matches. -/
def extract_skills_section (text : String) : String :=
  match scanOpt tryPat1At text.toList with
  | some g => String.mk g
  | none =>
    match scanOpt tryPat2At text.toList with
    | some g => String.mk g
    | none =>
      match scanOpt tryPat3At text.toList with
      | some g => String.mk g
      | none => ""

/-- The delimiter class `[,;|\n•·]` of `_parse_skills_section`. -/
def skillDelim (c : Char) : Bool :=
  c == ',' || c == ';' || c == '|' || c == '\n' || c == '•' || c == '·'

/-- `SkillsExtractor._parse_skills_section`: split, strip + lowercase each item, keep
known skills and multi-word skills contained in an item (result is a set; modelled
as a duplicate-free list in insertion order). -/
def parse_skills_section (section_text : String) : List String :=
  let items := (splitCh skillDelim section_text.toList).map
    (fun l => String.mk ((stripL l).map Char.toLower))
  items.foldl (fun acc item =>
    if !(item == "") && item.length > 1 then
      let acc1 := if item ∈ technical_skills_vocab then addSet acc item else acc
      technical_skills_vocab.foldl (fun acc2 skill =>
        if skill.toList.contains ' ' && containsSub item.toList skill.toList then
          addSet acc2 skill
        else acc2) acc1
    else acc) []

/-- The first loop of `SkillsExtractor.extract`: word-boundary search of every
technical vocabulary term over the lowercased text. -/
def found_technical_base (text_lower : List Char) : List String :=
  technical_skills_vocab.foldl (fun acc skill =>
    if searchWB skill.toList text_lower then addSet acc skill else acc) []

/-- The alias loop of `SkillsExtractor.extract`: a surface-form hit adds the canonical form. -/
def found_technical_aliased (text_lower : List Char) : List String :=
  skill_aliases.foldl (fun acc al =>
    if searchWB al.1.toList text_lower then addSet acc al.2 else acc)
    (found_technical_base text_lower)

/-- The soft-skill loop of `SkillsExtractor.extract`. -/
def found_soft_set (text_lower : List Char) : List String :=
  soft_skills_vocab.foldl (fun acc skill =>
    if searchWB skill.toList text_lower then addSet acc skill else acc) []

/-- The technical set after the dedicated-section pass (`found_technical.update(...)`,
run only when the extracted section is truthy). -/
def found_technical_full (text : String) : List String :=
  let skills_section := extract_skills_section text
  if !(skills_section == "") then
    (parse_skills_section skills_section).foldl addSet (found_technical_aliased (lowerS text).toList)
  else found_technical_aliased (lowerS text).toList

/-- `SkillsExtractor.extract`: word-boundary search of every vocabulary term and alias
over the lowercased text, plus the dedicated-section pass; the found sets are sorted
into lists and counted. -/
def skills_extract (text : String) : SkillsData :=
  let found_technical := found_technical_full text
  let found_soft := found_soft_set (lowerS text).toList
  { technical_skills := List.insertionSort (· ≤ ·) found_technical
    soft_skills := List.insertionSort (· ≤ ·) found_soft
    total_count := (found_technical.length : Int) + (found_soft.length : Int) }

/-! ## Education parser (src/extractors/education_parser.py), `_extract_year` -/

/-- The separator class `[-–—to]+` (its characters, not the word "to"). -/
def yrSepClass (c : Char) : Bool :=
  c == '-' || c == '–' || c == '—' || c == 't' || c == 'o'

/-- Consume `\d{4}`: exactly four digits. -/
def take4Digits (cs : List Char) : Option (List Char × List Char) :=
  match cs with
  | a :: b :: c :: d :: t =>
    if a.isDigit && b.isDigit && c.isDigit && d.isDigit then some ([a, b, c, d], t) else none
  | _ => none

/-- Position matcher for the range pattern `(\d{4})\s*[-–—to]+\s*(\d{4})`. -/
def tryYearRangeAt (cs : List Char) : Option (List Char × List Char) :=
  match take4Digits cs with
  | none => none
  | some (g1, r1) =>
    let r2 := dropSpaces r1
    let run := r2.takeWhile yrSepClass
    if run.isEmpty then none
    else
      match take4Digits (dropSpaces (r2.drop run.length)) with
      | some (g2, _) => some (g1, g2)
      | none => none

/-- Scanner for `re.findall(r'\b(19|20)\d{2}\b', text)`: the pattern has a capturing
group, so `findall` collects the group — the two-character century prefix — not the
whole four-digit match.  Matches are leftmost and non-overlapping. -/
def findYearsAux : Option Char → List Char → List (List Char)
  | _, [] => []
  | prev, c1 :: c2 :: c3 :: c4 :: t =>
    if !optWord prev && ((c1 == '1' && c2 == '9') || (c1 == '2' && c2 == '0'))
        && c3.isDigit && c4.isDigit && !optWord t.head? then
      [c1, c2] :: findYearsAux (some c4) t
    else findYearsAux (some c1) (c2 :: c3 :: c4 :: t)
  | _, c :: t => findYearsAux (some c) t

/-- `EducationParser._extract_year`: range pattern preferred; otherwise
`max(int(y) for y in findall)` over the collected groups, as a string. -/
def education_extract_year (text : String) : Option String :=
  match scanOpt tryYearRangeAt text.toList with
  | some (g1, g2) => some (String.mk g1 ++ " - " ++ String.mk g2)
  | none =>
    match (findYearsAux none text.toList).map digitsVal with
    | [] => none
    | y :: ys => some (toString (ys.foldl max y))

/-! ## Experience parser (src/extractors/experience_parser.py), `_calculate_duration` -/

/-- The unpacking `a, b = map(int, s.split('-'))`: exactly two pieces, both `int()`-parsable. -/
def parseYM (s : String) : Option (Int × Int) :=
  match s.splitOn "-" with
  | [a, b] =>
    match pyIntParse a, pyIntParse b with
    | some x, some y => some (x, y)
    | _, _ => none
  | _ => none

/-- The try-block of `ExperienceParser._calculate_duration`; `none` models any raised
parse exception.  `datetime.now()` enters as the pair `(now_year, now_month)`. -/
def durationBody (start_date : String) (end_date : Option String) (now_year now_month : Int) :
    Option Int :=
  let startParsed : Option (Int × Int) :=
    if start_date.toList.contains '-' then parseYM start_date
    else
      match pyIntParse start_date with
      | some y => some (y, 1)
      | none => none
  match startParsed with
  | none => none
  | some (sy, sm) =>
    let endParsed : Option (Int × Int) :=
      match end_date with
      | some e =>
        if !(e == "") && e.toList.contains '-' then parseYM e
        else if !(e == "") then
          match pyIntParse e with
          | some y => some (y, 12)
          | none => none
        else some (now_year, now_month)
      | none => some (now_year, now_month)
    match endParsed with
    | none => none
    | some (ey, em) => some (max 0 ((ey - sy) * 12 + (em - sm)))

/-- `ExperienceParser._calculate_duration`: falsy start gives 0; any exception in the
try-block is swallowed and gives 0. -/
def calculate_duration (start_date end_date : Option String) (now_year now_month : Int) : Int :=
  if !pyTruthyS start_date then 0
  else
    match durationBody (start_date.getD "") end_date now_year now_month with
    | some m => m
    | none => 0

/-! ## Ranker (src/ranker.py) -/

/-- The `breakdown` sub-dictionary keys read by `_calculate_composite_score`
(`skills_match`, `experience_relevance`; a Scorer-produced breakdown has neither). -/
structure BreakdownDict where
  skills_match : Option ℚ := none
  experience_relevance : Option ℚ := none
  deriving DecidableEq

/-- The `ats_score` dictionary as the ranker reads it.  The Scorer's
`score_resume` writes its result under the key `final_score`; the key
`total_score` the ranker looks for is never produced by the Scorer. -/
structure AtsScoreDict where
  total_score : Option ℚ := none
  final_score : Option ℚ := none
  breakdown : Option BreakdownDict := none
  deriving DecidableEq

/-- A batch entry handed to `rank_resumes`: the candidate dictionary.  `self_data`
holds resume-level keys on the candidate dictionary itself, used by the fallback
`resume_data.get('extracted_data', resume_data)`. -/
structure Candidate where
  ats_score : Option AtsScoreDict := none
  extracted_data : Option ResumeData := none
  self_data : ResumeData := {}
  composite_score : Option ℚ := none
  original_index : Option Nat := none
  rank : Option Nat := none
  deriving DecidableEq

/-- The `edu_scores` lookup table with its `.get(_, 30)` default. -/
def edu_level_score (lvl : String) : ℚ :=
  if lvl == "Phd" then 100
  else if lvl == "Doctorate" then 100
  else if lvl == "Master" then 85
  else if lvl == "Mba" then 85
  else if lvl == "Bachelor" then 70
  else if lvl == "Associate" then 50
  else if lvl == "Diploma" then 40
  else 30

/-- `ResumeRanker._calculate_composite_score`.  The early writes of
`scores['skills']`/`scores['experience']` from `breakdown.get('skills_match', 0)` and
`breakdown.get('experience_relevance', 0)` are dead in every path (each is
unconditionally overwritten before the weighted sum), so they are not repeated here. -/
def calculate_composite_score (resume_data : Candidate) : ℚ :=
  let computed : ℚ :=
    let extracted := resume_data.extracted_data.getD resume_data.self_data
    let total_skills := (extracted.skills.map (·.total_count)).getD 0
    let sSkills : ℚ := min 100 ((total_skills : ℚ) * 5)
    let total_years := ((extracted.experience.getD []).map (fun e => e.duration_years.getD 0)).sum
    let sExp : ℚ := min 100 (total_years * 20)
    let education_level := (extracted.summary.bind (·.education_level)).getD "Not specified"
    let sEdu := edu_level_score education_level
    let sProj : ℚ := min 100 (((extracted.projects.getD []).length : ℚ) * 25)
    round2 (sSkills * 0.40 + sExp * 0.30 + sEdu * 0.20 + sProj * 0.10)
  match resume_data.ats_score with
  | some ats =>
    match ats.breakdown with
    | some _ =>
      match ats.total_score with
      | some ts => ts
      | none => computed
    | none => computed
  | none => computed

/-- The enumeration loop of `rank_resumes`: each entry gets `composite_score` (computed
on the entry before the new keys are added) and `original_index`. -/
def tagFrom (i : Nat) : List Candidate → List Candidate
  | [] => []
  | c :: t =>
    { c with composite_score := some (calculate_composite_score c), original_index := some i } ::
      tagFrom (i + 1) t

/-- The `enumerate(ranked, 1)` loop assigning `rank`. -/
def assignRanksFrom (k : Nat) : List Candidate → List Candidate
  | [] => []
  | c :: t => { c with rank := some k } :: assignRanksFrom (k + 1) t

/-- The sort key `lambda x: x['composite_score']` (always present at sort time). -/
def keyOf (c : Candidate) : ℚ := c.composite_score.getD 0

/-- The original input position recorded on the candidate. -/
def idxOf (c : Candidate) : Nat := c.original_index.getD 0

/-- Python's `sorted(..., reverse=True)` is a stable descending sort; on index-tagged
elements (pairwise-distinct `original_index`, increasing in input order) its result
is the unique sort by this linear order: higher composite score first, ties by
lower original index. -/
def rankRel (a b : Candidate) : Prop :=
  keyOf b < keyOf a ∨ (keyOf a = keyOf b ∧ idxOf a ≤ idxOf b)

instance : DecidableRel rankRel := fun a b => by unfold rankRel; infer_instance

instance : IsTotal Candidate rankRel where
  total a b := by
    rcases lt_trichotomy (keyOf a) (keyOf b) with h | h | h
    · exact Or.inr (Or.inl h)
    · rcases Nat.le_total (idxOf a) (idxOf b) with hi | hi
      · exact Or.inl (Or.inr ⟨h, hi⟩)
      · exact Or.inr (Or.inr ⟨h.symm, hi⟩)
    · exact Or.inl (Or.inl h)

instance : IsTrans Candidate rankRel where
  trans a b c hab hbc := by
    rcases hab with h1 | ⟨h1, hi1⟩
    · rcases hbc with h2 | ⟨h2, _⟩
      · exact Or.inl (h2.trans h1)
      · exact Or.inl (h2 ▸ h1)
    · rcases hbc with h2 | ⟨h2, hi2⟩
      · exact Or.inl (h1 ▸ h2)
      · exact Or.inr ⟨h1.trans h2, hi1.trans hi2⟩

/-- `ResumeRanker.rank_resumes`: tag with composite score and original index, stable
descending sort, assign 1-based ranks; on an empty input the closing log statement
indexes `ranked[0]` and raises `IndexError`. -/
def rank_resumes (resumes_data : List Candidate) : Except String (List Candidate) :=
  let tagged := tagFrom 0 resumes_data
  let ranked := List.insertionSort rankRel tagged
  let ranked2 := assignRanksFrom 1 ranked
  match ranked2 with
  | [] => Except.error "IndexError: list index out of range"
  | _ => Except.ok ranked2

/-- Erase the `rank` key (used to compare batch entries across a ranking pass). -/
def stripRank (c : Candidate) : Candidate := { c with rank := none }

/-- Erase the `original_index` key (used to compare batch entries across a re-ranking
pass, which renumbers the indices but keeps everything else). -/
def stripIdx (c : Candidate) : Candidate := { c with original_index := none }

/-- Renumber `original_index` along a list (what a second enumeration pass does to an
already-tagged list whose composite scores recompute to the stored values). -/
def retagFrom (j : Nat) : List Candidate → List Candidate
  | [] => []
  | c :: t => { c with original_index := some j } :: retagFrom (j + 1) t

/-- The projection the sort relation depends on: composite score and original index. -/
def keyIdx (c : Candidate) : ℚ × Nat := (keyOf c, idxOf c)

/-! ## TXT parser (src/parsers/txt_parser.py) -/

/-- A byte of the file's content. -/
abbrev Byte := Fin 256

/-- Strict UTF-8 decoding of a byte sequence to code points (ASCII, 2-, 3- and 4-byte
forms; overlong encodings, surrogates and values above U+10FFFF rejected, as in
Python's `utf-8` codec). -/
def utf8_decode : List Byte → Option (List Nat)
  | [] => some []
  | b :: rest =>
    let v := b.val
    if v < 0x80 then (utf8_decode rest).map (v :: ·)
    else if v < 0xC2 then none
    else if v ≤ 0xDF then
      match rest with
      | c1 :: r2 =>
        if 0x80 ≤ c1.val && c1.val ≤ 0xBF then
          (utf8_decode r2).map (((v - 0xC0) * 0x40 + (c1.val - 0x80)) :: ·)
        else none
      | [] => none
    else if v ≤ 0xEF then
      match rest with
      | c1 :: c2 :: r3 =>
        let lo1 := if v = 0xE0 then 0xA0 else 0x80
        let hi1 := if v = 0xED then 0x9F else 0xBF
        if lo1 ≤ c1.val && c1.val ≤ hi1 && 0x80 ≤ c2.val && c2.val ≤ 0xBF then
          (utf8_decode r3).map
            (((v - 0xE0) * 0x1000 + (c1.val - 0x80) * 0x40 + (c2.val - 0x80)) :: ·)
        else none
      | _ => none
    else if v ≤ 0xF4 then
      match rest with
      | c1 :: c2 :: c3 :: r4 =>
        let lo1 := if v = 0xF0 then 0x90 else 0x80
        let hi1 := if v = 0xF4 then 0x8F else 0xBF
        if lo1 ≤ c1.val && c1.val ≤ hi1 && 0x80 ≤ c2.val && c2.val ≤ 0xBF
            && 0x80 ≤ c3.val && c3.val ≤ 0xBF then
          (utf8_decode r4).map
            (((v - 0xF0) * 0x40000 + (c1.val - 0x80) * 0x1000 + (c2.val - 0x80) * 0x40
              + (c3.val - 0x80)) :: ·)
        else none
      | _ => none
    else none
termination_by bs => bs.length
decreasing_by all_goals (simp only [List.length_cons]; omega)

/-- Latin-1 (and its alias iso-8859-1): every byte decodes to its own code point. -/
def latin1_decode (bs : List Byte) : List Nat := bs.map (·.val)

/-- The `windows-1252` mapping for the 0x80–0x9F block; five bytes are unmapped and
raise `UnicodeDecodeError` in Python. -/
def cp1252Map (b : Nat) : Option Nat :=
  if b < 0x80 then some b
  else if 0xA0 ≤ b then some b
  else if b = 0x80 then some 0x20AC
  else if b = 0x82 then some 0x201A
  else if b = 0x83 then some 0x0192
  else if b = 0x84 then some 0x201E
  else if b = 0x85 then some 0x2026
  else if b = 0x86 then some 0x2020
  else if b = 0x87 then some 0x2021
  else if b = 0x88 then some 0x02C6
  else if b = 0x89 then some 0x2030
  else if b = 0x8A then some 0x0160
  else if b = 0x8B then some 0x2039
  else if b = 0x8C then some 0x0152
  else if b = 0x8E then some 0x017D
  else if b = 0x91 then some 0x2018
  else if b = 0x92 then some 0x2019
  else if b = 0x93 then some 0x201C
  else if b = 0x94 then some 0x201D
  else if b = 0x95 then some 0x2022
  else if b = 0x96 then some 0x2013
  else if b = 0x97 then some 0x2014
  else if b = 0x98 then some 0x02DC
  else if b = 0x99 then some 0x2122
  else if b = 0x9A then some 0x0161
  else if b = 0x9B then some 0x203A
  else if b = 0x9C then some 0x0153
  else if b = 0x9E then some 0x017E
  else if b = 0x9F then some 0x0178
  else none

/-- cp1252 decoding of a byte sequence. -/
def cp1252_decode (bs : List Byte) : Option (List Nat) := bs.mapM (fun b => cp1252Map b.val)

/-- The encoding loop of `TXTParser.parse`: `['utf-8', 'latin-1', 'cp1252',
'iso-8859-1']` tried in order, first decode without `UnicodeDecodeError` wins. -/
def try_encodings (bs : List Byte) : Option (List Nat × String) :=
  match utf8_decode bs with
  | some t => some (t, "utf-8")
  | none =>
    match some (latin1_decode bs) with
    | some t => some (t, "latin-1")
    | none =>
      match cp1252_decode bs with
      | some t => some (t, "cp1252")
      | none =>
        match some (latin1_decode bs) with
        | some t => some (t, "iso-8859-1")
        | none => none

/-- The result dictionary of `TXTParser.parse` for an existing `.txt` file. -/
structure TxtResult where
  text : List Nat
  lines : Nat
  encoding : Option String
  deriving DecidableEq

/-- Number of pieces of `text.split('\n')`: newline count plus one. -/
def countLines (t : List Nat) : Nat := (t.filter (· == 10)).length + 1

/-- `TXTParser.parse` on the byte content of an existing `.txt` file: the encoding
chain, then the `ValueError('Could not decode file with any supported encoding')`
branch when every decode failed. -/
def txt_parse (bs : List Byte) : Except String TxtResult :=
  match try_encodings bs with
  | some (t, enc) => Except.ok { text := t, lines := countLines t, encoding := some enc }
  | none => Except.error "Could not decode file with any supported encoding"

/-- The claim's example batch: three candidates whose composite scores are 90, 70, 90
(carried as `ats_score['total_score']`, the direct-use path of the ranker). -/
def rankExample : List Candidate :=
  [{ ats_score := some { total_score := some 90, breakdown := some {} } },
   { ats_score := some { total_score := some 70, breakdown := some {} } },
   { ats_score := some { total_score := some 90, breakdown := some {} } }]

/-- The expected ranking of `rankExample`: rank 1 = input index 0, rank 2 = input
index 2, rank 3 = input index 1 (stable tie-break between the two 90s). -/
def rankExampleOut : List Candidate :=
  [{ ats_score := some { total_score := some 90, breakdown := some {} },
     composite_score := some 90, original_index := some 0, rank := some 1 },
   { ats_score := some { total_score := some 90, breakdown := some {} },
     composite_score := some 90, original_index := some 2, rank := some 2 },
   { ats_score := some { total_score := some 70, breakdown := some {} },
     composite_score := some 70, original_index := some 1, rank := some 3 }]


/-! ## Theorems

Helper lemmas come first; each claim `Cn` then has exactly one theorem (plus a
witness or counterexample where required).
-/

/-- Helper: whatever the try-block of `_calculate_duration` returns is non-negative,
because its only successful exit is `max(0, months)`. -/
theorem durationBody_nonneg (s : String) (e : Option String) (ny nm : Int) (m : Int)
    (h : durationBody s e ny nm = some m) : 0 ≤ m := by
  simp only [durationBody] at h
  split at h
  · exact absurd h (by simp)
  · split at h
    · exact absurd h (by simp)
    · simp only [Option.some.injEq] at h
      subst h
      exact le_max_left 0 _

/-- C1.  `score_resume` never returns the claimed `ScoreResult` dictionary: for every
extracted record, job-description text and semantic sub-score, the call raises
`KeyError: 'total_score'` in its closing log statement (the result dictionary's key is
`final_score`, but the f-string interpolates `result['total_score']`). -/
theorem C1_score_resume_always_raises :
    ∀ (resume_data : ResumeData) (jd_text : String) (semantic_score : ℚ),
      score_resume resume_data jd_text semantic_score =
        Except.error "KeyError: 'total_score'" := by
  intro r jd sem
  rfl

/-- C2.  A candidate that carries a Scorer-produced score (key `final_score`, with a
`breakdown`) does not get that value as its composite: the ranker looks only for the
key `total_score`, finds none, and recomputes from the extracted data — here the
empty record, giving 6.0 (education default 30 times weight 0.20) instead of 90. -/
theorem C2_ranker_recomputes_despite_final_score :
    calculate_composite_score
      { ats_score := some { final_score := some 90, breakdown := some {} },
        extracted_data := some {} } = 6 ∧ ((6 : ℚ) ≠ 90) := by
  constructor
  · have hedu : edu_level_score "Not specified" = 30 := by decide
    unfold calculate_composite_score
    norm_num [hedu, round2, roundHalfEven, Int.fract]
  · decide

/-- C3.  On an entry with no year range and the single bare year 2019, `_extract_year`
returns `"20"`, not `"2019"`: the pattern `\b(19|20)\d{2}\b` has a capturing group, so
`re.findall` collects only the century prefix, and the maximum of those is taken. -/
theorem C3_extract_year_returns_century :
    education_extract_year "Bachelor of Science, MIT, 2019" = some "20" ∧
    education_extract_year "Bachelor of Science, MIT, 2019" ≠ some "2019" := by
  constructor
  · decide
  · decide

/-- C4.  `_get_grade` implements the inclusive lower-bound thresholds
`>=90 → A+, >=80 → A, >=70 → B, >=60 → C, >=50 → D, else F`, and the four boundary
evaluations of the claim hold. -/
theorem C4_grade_boundaries :
    (∀ s : ℚ,
      (90 ≤ s → get_grade s = "A+") ∧
      (80 ≤ s ∧ s < 90 → get_grade s = "A") ∧
      (70 ≤ s ∧ s < 80 → get_grade s = "B") ∧
      (60 ≤ s ∧ s < 70 → get_grade s = "C") ∧
      (50 ≤ s ∧ s < 60 → get_grade s = "D") ∧
      (s < 50 → get_grade s = "F")) ∧
    get_grade 90 = "A+" ∧ get_grade (89999 / 1000) = "A" ∧
    get_grade 50 = "D" ∧ get_grade (49999 / 1000) = "F" := by
  refine ⟨fun s => ⟨?_, ?_, ?_, ?_, ?_, ?_⟩, by norm_num [get_grade], by norm_num [get_grade],
    by norm_num [get_grade], by norm_num [get_grade]⟩
  · intro h
    simp [get_grade, show s ≥ 90 from h]
  · rintro ⟨h1, h2⟩
    simp [get_grade, show ¬(s ≥ 90) from by linarith, show s ≥ 80 from h1]
  · rintro ⟨h1, h2⟩
    simp [get_grade, show ¬(s ≥ 90) from by linarith, show ¬(s ≥ 80) from by linarith,
      show s ≥ 70 from h1]
  · rintro ⟨h1, h2⟩
    simp [get_grade, show ¬(s ≥ 90) from by linarith, show ¬(s ≥ 80) from by linarith,
      show ¬(s ≥ 70) from by linarith, show s ≥ 60 from h1]
  · rintro ⟨h1, h2⟩
    simp [get_grade, show ¬(s ≥ 90) from by linarith, show ¬(s ≥ 80) from by linarith,
      show ¬(s ≥ 70) from by linarith, show ¬(s ≥ 60) from by linarith, show s ≥ 50 from h1]
  · intro h
    simp [get_grade, show ¬(s ≥ 90) from by linarith, show ¬(s ≥ 80) from by linarith,
      show ¬(s ≥ 70) from by linarith, show ¬(s ≥ 60) from by linarith,
      show ¬(s ≥ 50) from by linarith]

/-- Witness for C4 at concrete scores, through the theorem's universal part. -/
theorem C4_grade_boundaries_witness :
    get_grade 95 = "A+" ∧ get_grade 65 = "C" :=
  ⟨(C4_grade_boundaries.1 95).1 (by norm_num),
   (C4_grade_boundaries.1 65).2.2.2.1 ⟨by norm_num, by norm_num⟩⟩

/-- C7.  For every start/end date pair (strings, missing values, malformed input) the
computed duration is a non-negative integer, and any parse failure inside the
swallowed try-block yields exactly 0; the function is total, so no exception escapes. -/
theorem C7_duration_nonneg_total :
    ∀ (start_date end_date : Option String) (now_year now_month : Int),
      0 ≤ calculate_duration start_date end_date now_year now_month ∧
      (durationBody (start_date.getD "") end_date now_year now_month = none →
        calculate_duration start_date end_date now_year now_month = 0) := by
  intro s e ny nm
  unfold calculate_duration
  constructor
  · split
    · exact le_refl 0
    · split
      · exact durationBody_nonneg _ _ _ _ _ (by assumption)
      · exact le_refl 0
  · intro h
    split
    · rfl
    · split
      · rename_i m hm
        rw [h] at hm
        exact absurd hm (by simp)
      · rfl

/-- Witness for C7: an end date before the start date clamps to 0 (non-negative), and
an unparsable start date falls through the exception handler to 0. -/
theorem C7_duration_witness :
    0 ≤ calculate_duration (some "2020-05") (some "2019-01") 2026 10 ∧
    calculate_duration (some "not a date") none 2026 10 = 0 :=
  ⟨(C7_duration_nonneg_total (some "2020-05") (some "2019-01") 2026 10).1,
   (C7_duration_nonneg_total (some "not a date") none 2026 10).2 (by decide)⟩

/-- C10.  For every byte content of an existing `.txt` file, the encoding chain
succeeds no later than the latin-1 attempt (latin-1 decodes every byte sequence), so
`parse` never reaches the `Could not decode file with any supported encoding` branch. -/
theorem C10_txt_decode_never_fails :
    ∀ bs : List Byte,
      (∃ t, utf8_decode bs = some t ∧
        txt_parse bs = Except.ok ⟨t, countLines t, some "utf-8"⟩) ∨
      (utf8_decode bs = none ∧
        txt_parse bs = Except.ok
          ⟨latin1_decode bs, countLines (latin1_decode bs), some "latin-1"⟩) := by
  intro bs
  cases h : utf8_decode bs with
  | some t => exact Or.inl ⟨t, rfl, by simp [txt_parse, try_encodings, h]⟩
  | none => exact Or.inr ⟨rfl, by simp [txt_parse, try_encodings, h]⟩

/-- C8.  `_calculate_experience_score` is the claimed piecewise function: an untruthy
experience list short-circuits to 30; with experience and no extracted requirement
(default 0) the score is `min(100, 50 + totalYears*10)`; otherwise the tier chain
`>=required → 100`, `>=0.7*required → 80`, `>=0.5*required → 60`, else `40`. -/
theorem C8_experience_score_piecewise :
    ∀ (r : ResumeData) (jd_text : String),
      (listTruthy r.experience = false → calculate_experience_score r jd_text = 30) ∧
      (listTruthy r.experience = true → extract_required_experience jd_text = 0 →
        calculate_experience_score r jd_text =
          min 100 (50 + ((r.summary.bind (·.total_experience_years)).getD 0) * 10)) ∧
      (listTruthy r.experience = true → 0 < extract_required_experience jd_text →
        ((r.summary.bind (·.total_experience_years)).getD 0) ≥ (extract_required_experience jd_text : ℚ) →
        calculate_experience_score r jd_text = 100) ∧
      (listTruthy r.experience = true → 0 < extract_required_experience jd_text →
        ((r.summary.bind (·.total_experience_years)).getD 0) < (extract_required_experience jd_text : ℚ) →
        ((r.summary.bind (·.total_experience_years)).getD 0) ≥ (extract_required_experience jd_text : ℚ) * 0.7 →
        calculate_experience_score r jd_text = 80) ∧
      (listTruthy r.experience = true → 0 < extract_required_experience jd_text →
        ((r.summary.bind (·.total_experience_years)).getD 0) < (extract_required_experience jd_text : ℚ) * 0.7 →
        ((r.summary.bind (·.total_experience_years)).getD 0) ≥ (extract_required_experience jd_text : ℚ) * 0.5 →
        calculate_experience_score r jd_text = 60) ∧
      (listTruthy r.experience = true → 0 < extract_required_experience jd_text →
        ((r.summary.bind (·.total_experience_years)).getD 0) < (extract_required_experience jd_text : ℚ) * 0.5 →
        calculate_experience_score r jd_text = 40) := by
  intro r jd
  rcases hexp : r.experience with _ | (_ | ⟨a, t⟩)
  · refine ⟨fun _ => by simp [calculate_experience_score, hexp], ?_, ?_, ?_, ?_, ?_⟩
    all_goals intro h
    all_goals simp [listTruthy] at h
  · refine ⟨fun _ => by simp [calculate_experience_score, hexp], ?_, ?_, ?_, ?_, ?_⟩
    all_goals intro h
    all_goals simp [listTruthy] at h
  · have hreqle : ∀ q : ℚ, 0 < q → q * 0.7 ≤ q := by intro q hq; nlinarith
    have hreqle5 : ∀ q : ℚ, 0 < q → q * 0.5 ≤ q := by intro q hq; nlinarith
    have hreqle57 : ∀ q : ℚ, 0 < q → q * 0.5 ≤ q * 0.7 := by intro q hq; nlinarith
    refine ⟨fun h => by simp [listTruthy] at h, ?_, ?_, ?_, ?_, ?_⟩
    · intro _ hreq
      simp [calculate_experience_score, hexp, hreq]
    · intro _ hpos hge
      simp only [calculate_experience_score, hexp]
      rw [if_neg (by omega), if_pos hge]
    · intro _ hpos hlt hge
      simp only [calculate_experience_score, hexp]
      rw [if_neg (by omega : ¬ (extract_required_experience jd = 0)),
        if_neg (by push_neg; exact hlt), if_pos hge]
    · intro _ hpos hlt hge
      have hq : (0 : ℚ) < (extract_required_experience jd : ℚ) := by exact_mod_cast hpos
      simp only [calculate_experience_score, hexp]
      rw [if_neg (by omega : ¬ (extract_required_experience jd = 0)),
        if_neg (by push_neg; exact lt_of_lt_of_le hlt (hreqle _ hq)),
        if_neg (by push_neg; exact hlt), if_pos hge]
    · intro _ hpos hlt
      have hq : (0 : ℚ) < (extract_required_experience jd : ℚ) := by exact_mod_cast hpos
      simp only [calculate_experience_score, hexp]
      rw [if_neg (by omega : ¬ (extract_required_experience jd = 0)),
        if_neg (by push_neg; exact lt_of_lt_of_le hlt (hreqle5 _ hq)),
        if_neg (by push_neg; exact lt_of_lt_of_le hlt (hreqle57 _ hq)),
        if_neg (by push_neg; exact hlt)]

/-- Witness for C8: an empty record scores 30, and a record with 3 years against a
"minimum 4 years" JD lands in the 80-point tier (3 ≥ 0.7·4). -/
theorem C8_experience_score_witness :
    calculate_experience_score {} "" = 30 ∧
    calculate_experience_score
      { experience := some [{}],
        summary := some { total_experience_years := some 3 } } "minimum 4 years" = 80 := by
  have hreq : extract_required_experience "minimum 4 years" = 4 := by decide
  constructor
  · exact (C8_experience_score_piecewise {} "").1 rfl
  · refine (C8_experience_score_piecewise _ "minimum 4 years").2.2.2.1 rfl (by rw [hreq]; norm_num) ?_ ?_
    · rw [hreq]; norm_num [Option.bind]
    · rw [hreq]; norm_num [Option.bind]

theorem addSet_nodup (l : List String) (s : String) (h : l.Nodup) : (addSet l s).Nodup := by
  unfold addSet
  split
  · exact h
  · rename_i hnot
    simp [List.nodup_append, h, hnot]

theorem foldl_addSet_like_nodup {α : Type} (f : List String → α → List String)
    (hf : ∀ acc a, f acc a = acc ∨ ∃ s, f acc a = addSet acc s) :
    ∀ (l : List α) (acc : List String), acc.Nodup → (l.foldl f acc).Nodup := by
  intro l
  induction l with
  | nil => intro acc h; exact h
  | cons a t ih =>
    intro acc h
    simp only [List.foldl_cons]
    apply ih
    rcases hf acc a with he | ⟨s, he⟩
    · rw [he]; exact h
    · rw [he]; exact addSet_nodup _ _ h

theorem guardAdd_like {β : Type} (g : β → Bool) (v : β → String) :
    ∀ (acc : List String) (a : β),
      (if g a then addSet acc (v a) else acc) = acc ∨
      ∃ s, (if g a then addSet acc (v a) else acc) = addSet acc s := by
  intro acc a
  by_cases hg : g a = true
  · exact Or.inr ⟨v a, by rw [if_pos hg]⟩
  · exact Or.inl (by rw [if_neg hg])

theorem found_technical_base_nodup (tl : List Char) : (found_technical_base tl).Nodup := by
  unfold found_technical_base
  exact foldl_addSet_like_nodup _
    (guardAdd_like (fun s => searchWB s.toList tl) id) _ _ List.nodup_nil

theorem found_technical_aliased_nodup (tl : List Char) : (found_technical_aliased tl).Nodup := by
  unfold found_technical_aliased
  exact foldl_addSet_like_nodup _
    (guardAdd_like (fun al : String × String => searchWB al.1.toList tl) Prod.snd) _ _
    (found_technical_base_nodup tl)

theorem found_soft_set_nodup (tl : List Char) : (found_soft_set tl).Nodup := by
  unfold found_soft_set
  exact foldl_addSet_like_nodup _
    (guardAdd_like (fun s => searchWB s.toList tl) id) _ _ List.nodup_nil

theorem found_technical_full_nodup (text : String) : (found_technical_full text).Nodup := by
  unfold found_technical_full
  dsimp only []
  split
  · exact foldl_addSet_like_nodup _ (fun acc a => Or.inr ⟨a, rfl⟩) _ _
      (found_technical_aliased_nodup _)
  · exact found_technical_aliased_nodup _

/-- C6.  For every input text the extractor's result satisfies
`total_count = |technical_skills| + |soft_skills|`, and both lists are duplicate-free
and sorted lexicographically (code-point order, as Python sorts strings). -/
theorem C6_skills_count_invariants :
    ∀ text : String,
      (skills_extract text).total_count =
        ((skills_extract text).technical_skills.length : Int) +
          ((skills_extract text).soft_skills.length : Int) ∧
      (skills_extract text).technical_skills.Nodup ∧
      (skills_extract text).soft_skills.Nodup ∧
      List.Sorted (· ≤ ·) (skills_extract text).technical_skills ∧
      List.Sorted (· ≤ ·) (skills_extract text).soft_skills := by
  intro text
  unfold skills_extract
  refine ⟨?_, ?_, ?_, ?_, ?_⟩
  · simp only [(List.perm_insertionSort (· ≤ ·) (found_technical_full text)).length_eq,
      (List.perm_insertionSort (· ≤ ·) (found_soft_set (lowerS text).toList)).length_eq]
  · exact ((List.perm_insertionSort (· ≤ ·) _).nodup_iff).mpr (found_technical_full_nodup text)
  · exact ((List.perm_insertionSort (· ≤ ·) _).nodup_iff).mpr (found_soft_set_nodup _)
  · exact List.sorted_insertionSort (· ≤ ·) _
  · exact List.sorted_insertionSort (· ≤ ·) _

theorem mem_addSet {l : List String} {s x : String} (h : x ∈ addSet l s) : x ∈ l ∨ x = s := by
  unfold addSet at h
  split at h
  · exact Or.inl h
  · rcases List.mem_append.mp h with h1 | h1
    · exact Or.inl h1
    · exact Or.inr (List.mem_singleton.mp h1)

theorem mem_addSet_self (l : List String) (s : String) : s ∈ addSet l s := by
  unfold addSet
  split
  · assumption
  · exact List.mem_append.mpr (Or.inr (List.mem_singleton.mpr rfl))

theorem mem_addSet_of_mem {l : List String} {x : String} (s : String) (h : x ∈ l) :
    x ∈ addSet l s := by
  unfold addSet
  split
  · exact h
  · exact List.mem_append.mpr (Or.inl h)

theorem foldl_mem_subset {α : Type} (S : List String) :
    ∀ (l : List α) (f : List String → α → List String),
      (∀ acc a, a ∈ l → (∀ x ∈ acc, x ∈ S) → ∀ x ∈ f acc a, x ∈ S) →
      ∀ acc, (∀ x ∈ acc, x ∈ S) → ∀ x ∈ l.foldl f acc, x ∈ S := by
  intro l
  induction l with
  | nil => intro f _ acc hacc x hx; exact hacc x hx
  | cons a t ih =>
    intro f hstep acc hacc x hx
    simp only [List.foldl_cons] at hx
    exact ih f (fun acc' a' ha' => hstep acc' a' (List.mem_cons_of_mem _ ha'))
      (f acc a) (hstep acc a (List.mem_cons_self _ _) hacc) x hx

theorem foldl_addSet_like_mono {α : Type} (f : List String → α → List String)
    (hf : ∀ acc a x, x ∈ acc → x ∈ f acc a) :
    ∀ (l : List α) (acc : List String) (x : String), x ∈ acc → x ∈ l.foldl f acc := by
  intro l
  induction l with
  | nil => intro acc x hx; exact hx
  | cons a t ih =>
    intro acc x hx
    simp only [List.foldl_cons]
    exact ih (f acc a) x (hf acc a x hx)

theorem parse_skills_section_subset (s : String) :
    ∀ x ∈ parse_skills_section s, x ∈ technical_skills_vocab := by
  unfold parse_skills_section
  refine foldl_mem_subset technical_skills_vocab _ _ ?_ [] (by simp)
  intro acc item _ hacc x hx
  by_cases hguard : (!(item == "") && item.length > 1) = true
  · rw [if_pos hguard] at hx
    refine foldl_mem_subset technical_skills_vocab _ _ ?_ _ ?_ x hx
    · intro acc2 skill hskill hacc2 y hy
      by_cases hc : (skill.toList.contains ' ' && containsSub item.toList skill.toList) = true
      · rw [if_pos hc] at hy
        rcases mem_addSet hy with h1 | h1
        · exact hacc2 y h1
        · exact h1 ▸ hskill
      · rw [if_neg hc] at hy
        exact hacc2 y hy
    · intro y hy
      by_cases hv : item ∈ technical_skills_vocab
      · rw [if_pos hv] at hy
        rcases mem_addSet hy with h1 | h1
        · exact hacc y h1
        · exact h1 ▸ hv
      · rw [if_neg hv] at hy
        exact hacc y hy
  · rw [if_neg hguard] at hx
    exact hacc x hx

theorem found_technical_base_subset (tl : List Char) :
    ∀ x ∈ found_technical_base tl, x ∈ technical_skills_vocab := by
  unfold found_technical_base
  refine foldl_mem_subset technical_skills_vocab _ _ ?_ [] (by simp)
  intro acc a ha hacc x hx
  by_cases hs : searchWB a.toList tl = true
  · rw [if_pos hs] at hx
    rcases mem_addSet hx with h1 | h1
    · exact hacc x h1
    · exact h1 ▸ ha
  · rw [if_neg hs] at hx
    exact hacc x hx

theorem alias_targets_in_vocab :
    ∀ al ∈ skill_aliases, al.2 ∈ technical_skills_vocab := by decide

theorem found_technical_aliased_subset (tl : List Char) :
    ∀ x ∈ found_technical_aliased tl, x ∈ technical_skills_vocab := by
  unfold found_technical_aliased
  refine foldl_mem_subset technical_skills_vocab _ _ ?_ _ (found_technical_base_subset tl)
  intro acc al hal hacc x hx
  by_cases hs : searchWB al.1.toList tl = true
  · rw [if_pos hs] at hx
    rcases mem_addSet hx with h1 | h1
    · exact hacc x h1
    · exact h1 ▸ alias_targets_in_vocab al hal
  · rw [if_neg hs] at hx
    exact hacc x hx

theorem found_technical_full_subset (text : String) :
    ∀ x ∈ found_technical_full text, x ∈ technical_skills_vocab := by
  unfold found_technical_full
  dsimp only []
  split
  · refine foldl_mem_subset technical_skills_vocab _ _ ?_ _
      (found_technical_aliased_subset (lowerS text).toList)
    intro acc a ha hacc x hx
    rcases mem_addSet hx with h1 | h1
    · exact hacc x h1
    · exact h1 ▸ parse_skills_section_subset _ a ha
  · exact found_technical_aliased_subset (lowerS text).toList

theorem found_soft_set_subset (tl : List Char) :
    ∀ x ∈ found_soft_set tl, x ∈ soft_skills_vocab := by
  unfold found_soft_set
  refine foldl_mem_subset soft_skills_vocab _ _ ?_ [] (by simp)
  intro acc a ha hacc x hx
  by_cases hs : searchWB a.toList tl = true
  · rw [if_pos hs] at hx
    rcases mem_addSet hx with h1 | h1
    · exact hacc x h1
    · exact h1 ▸ ha
  · rw [if_neg hs] at hx
    exact hacc x hx

theorem mem_alias_fold (tl : List Char) :
    ∀ (l : List (String × String)) (acc : List String) (al : String × String), al ∈ l →
      searchWB al.1.toList tl = true →
      al.2 ∈ l.foldl (fun acc al => if searchWB al.1.toList tl then addSet acc al.2 else acc) acc := by
  intro l
  induction l with
  | nil => intro acc al hal; exact absurd hal (List.not_mem_nil al)
  | cons a t ih =>
    intro acc al hal hs
    simp only [List.foldl_cons]
    rcases List.mem_cons.mp hal with h1 | h1
    · subst h1
      exact foldl_addSet_like_mono _
        (fun acc2 a2 x hx => by
          by_cases hc : searchWB a2.1.toList tl = true
          · rw [if_pos hc]; exact mem_addSet_of_mem _ hx
          · rw [if_neg hc]; exact hx)
        t _ _ (by rw [if_pos hs]; exact mem_addSet_self acc al.2)
    · exact ih _ al h1 hs

theorem kubernetes_mem_aliased (tl : List Char) (h : searchWB "k8s".toList tl = true) :
    "kubernetes" ∈ found_technical_aliased tl := by
  unfold found_technical_aliased
  exact mem_alias_fold tl skill_aliases _ ("k8s", "kubernetes") (by decide) h

theorem kubernetes_mem_full (text : String)
    (h : searchWB "k8s".toList (lowerS text).toList = true) :
    "kubernetes" ∈ found_technical_full text := by
  unfold found_technical_full
  dsimp only []
  split
  · exact foldl_addSet_like_mono _ (fun acc a x hx => mem_addSet_of_mem _ hx) _ _ _
      (kubernetes_mem_aliased _ h)
  · exact kubernetes_mem_aliased _ h

/-- C9.  The skills extractor is a closed-vocabulary classifier: every output
technical/soft skill belongs to the fixed vocabulary, and a text with a standalone
`k8s` token yields canonical `kubernetes` and never `k8s`. -/
theorem C9_closed_vocabulary :
    ∀ text : String,
      (∀ s ∈ (skills_extract text).technical_skills, s ∈ technical_skills_vocab) ∧
      (∀ s ∈ (skills_extract text).soft_skills, s ∈ soft_skills_vocab) ∧
      (searchWB "k8s".toList (lowerS text).toList = true →
        "kubernetes" ∈ (skills_extract text).technical_skills ∧
        "k8s" ∉ (skills_extract text).technical_skills ∧
        "k8s" ∉ (skills_extract text).soft_skills) := by
  intro text
  have htech : ∀ s ∈ (skills_extract text).technical_skills, s ∈ technical_skills_vocab := by
    intro s hs
    exact found_technical_full_subset text s
      ((List.perm_insertionSort (· ≤ ·) _).mem_iff.mp hs)
  have hsoft : ∀ s ∈ (skills_extract text).soft_skills, s ∈ soft_skills_vocab := by
    intro s hs
    exact found_soft_set_subset _ s ((List.perm_insertionSort (· ≤ ·) _).mem_iff.mp hs)
  refine ⟨htech, hsoft, fun h => ⟨?_, ?_, ?_⟩⟩
  · exact (List.perm_insertionSort (· ≤ ·) _).mem_iff.mpr (kubernetes_mem_full text h)
  · intro hk
    exact absurd (htech _ hk) (by decide)
  · intro hk
    exact absurd (hsoft _ hk) (by decide)

/-- Witness for C9 at the concrete text "uses k8s daily", through the theorem. -/
theorem C9_closed_vocabulary_witness :
    "kubernetes" ∈ (skills_extract "uses k8s daily").technical_skills ∧
    "k8s" ∉ (skills_extract "uses k8s daily").technical_skills ∧
    "kubernetes" ∈ technical_skills_vocab := by
  have h := C9_closed_vocabulary "uses k8s daily"
  have hk := h.2.2 (by decide)
  exact ⟨hk.1, hk.2.1, h.1 "kubernetes" hk.1⟩

theorem calc_upd_tag (c : Candidate) (x : Option ℚ) (y : Option Nat) :
    calculate_composite_score { c with composite_score := x, original_index := y } =
      calculate_composite_score c := rfl

theorem calc_upd_rank (c : Candidate) (z : Option Nat) :
    calculate_composite_score { c with rank := z } = calculate_composite_score c := rfl

theorem calc_upd_idx (c : Candidate) (y : Option Nat) :
    calculate_composite_score { c with original_index := y } = calculate_composite_score c := rfl

theorem tagFrom_tagged : ∀ (l : List Candidate) (i : Nat) (c : Candidate),
    c ∈ tagFrom i l → c.composite_score = some (calculate_composite_score c) := by
  intro l
  induction l with
  | nil => intro i c hc; simp [tagFrom] at hc
  | cons a t ih =>
    intro i c hc
    rcases List.mem_cons.mp hc with h1 | h1
    · subst h1
      exact congrArg some (calc_upd_tag a _ _).symm
    · exact ih (i + 1) c h1

theorem assignRanks_shape : ∀ (l : List Candidate) (k : Nat) (c : Candidate),
    c ∈ assignRanksFrom k l → ∃ c' ∈ l, ∃ j, c = { c' with rank := some j } := by
  intro l
  induction l with
  | nil => intro k c hc; simp [assignRanksFrom] at hc
  | cons a t ih =>
    intro k c hc
    rcases List.mem_cons.mp hc with h1 | h1
    · exact ⟨a, List.mem_cons_self a t, k, h1⟩
    · obtain ⟨c', hmem, j, he⟩ := ih (k + 1) c h1
      exact ⟨c', List.mem_cons_of_mem _ hmem, j, he⟩

theorem retagFrom_shape : ∀ (l : List Candidate) (j : Nat) (c : Candidate),
    c ∈ retagFrom j l → ∃ c' ∈ l, ∃ j2, j ≤ j2 ∧ c = { c' with original_index := some j2 } := by
  intro l
  induction l with
  | nil => intro j c hc; simp [retagFrom] at hc
  | cons a t ih =>
    intro j c hc
    rcases List.mem_cons.mp hc with h1 | h1
    · exact ⟨a, List.mem_cons_self a t, j, le_refl j, h1⟩
    · obtain ⟨c', hmem, j2, hle, he⟩ := ih (j + 1) c h1
      exact ⟨c', List.mem_cons_of_mem _ hmem, j2, by omega, he⟩

theorem ranked_tagged (l : List Candidate) :
    ∀ c ∈ assignRanksFrom 1 (List.insertionSort rankRel (tagFrom 0 l)),
      c.composite_score = some (calculate_composite_score c) := by
  intro c hc
  obtain ⟨c', hmem, j, he⟩ := assignRanks_shape _ 1 c hc
  have hsortmem : c' ∈ tagFrom 0 l :=
    (List.perm_insertionSort rankRel (tagFrom 0 l)).subset hmem
  have ht := tagFrom_tagged l 0 c' hsortmem
  subst he
  rw [calc_upd_rank]
  exact ht

theorem update_comp_self (c : Candidate) (i : Nat)
    (h : c.composite_score = some (calculate_composite_score c)) :
    ({ c with composite_score := some (calculate_composite_score c), original_index := some i } : Candidate) = { c with original_index := some i } := by
  conv_lhs => rw [← h]

theorem tagFrom_eq_retagFrom : ∀ (l : List Candidate) (i : Nat),
    (∀ c ∈ l, c.composite_score = some (calculate_composite_score c)) →
    tagFrom i l = retagFrom i l := by
  intro l
  induction l with
  | nil => intro i _; rfl
  | cons a t ih =>
    intro i h
    simp only [tagFrom, retagFrom]
    rw [update_comp_self a i (h a (List.mem_cons_self a t)),
      ih (i + 1) (fun c hc => h c (List.mem_cons_of_mem _ hc))]

theorem retagFrom_pairwise : ∀ (l : List Candidate) (j : Nat),
    List.Pairwise (fun a b => keyOf b ≤ keyOf a) l →
    List.Pairwise rankRel (retagFrom j l) := by
  intro l
  induction l with
  | nil => intro j _; exact List.Pairwise.nil
  | cons a t ih =>
    intro j h
    rcases List.pairwise_cons.mp h with ⟨hhead, htail⟩
    refine List.pairwise_cons.mpr ⟨?_, ih (j + 1) htail⟩
    intro b' hb'
    obtain ⟨b, hmem, j2, hle, he⟩ := retagFrom_shape t (j + 1) b' hb'
    subst he
    have hk : keyOf b ≤ keyOf a := hhead b hmem
    rcases lt_or_eq_of_le hk with hlt | heq
    · exact Or.inl hlt
    · refine Or.inr ⟨heq.symm, ?_⟩
      show j ≤ j2
      omega

theorem assignRanks_pairwise {R : Candidate → Candidate → Prop}
    (hR : ∀ (a b : Candidate) (j k : Nat), R a b →
      R { a with rank := some j } { b with rank := some k }) :
    ∀ (l : List Candidate) (k : Nat), List.Pairwise R l →
      List.Pairwise R (assignRanksFrom k l) := by
  intro l
  induction l with
  | nil => intro k _; exact List.Pairwise.nil
  | cons a t ih =>
    intro k h
    rcases List.pairwise_cons.mp h with ⟨hhead, htail⟩
    refine List.pairwise_cons.mpr ⟨?_, ih (k + 1) htail⟩
    intro b' hb'
    obtain ⟨b, hmem, j, he⟩ := assignRanks_shape t (k + 1) b' hb'
    subst he
    exact hR a b k j (hhead b hmem)

theorem tagFrom_length : ∀ (l : List Candidate) (i : Nat), (tagFrom i l).length = l.length := by
  intro l
  induction l with
  | nil => intro i; rfl
  | cons a t ih => intro i; simp [tagFrom, ih]

theorem assignRanksFrom_length : ∀ (l : List Candidate) (k : Nat),
    (assignRanksFrom k l).length = l.length := by
  intro l
  induction l with
  | nil => intro k; rfl
  | cons a t ih => intro k; simp [assignRanksFrom, ih]

theorem retagFrom_length : ∀ (l : List Candidate) (j : Nat),
    (retagFrom j l).length = l.length := by
  intro l
  induction l with
  | nil => intro j; rfl
  | cons a t ih => intro j; simp [retagFrom, ih]

theorem assignRanks_map_rank : ∀ (l : List Candidate) (k : Nat),
    (assignRanksFrom k l).map (·.rank) = (List.range l.length).map (fun i => some (k + i)) := by
  intro l
  induction l with
  | nil => intro k; rfl
  | cons a t ih =>
    intro k
    have hfun : (fun i => (some (k + 1 + i) : Option Nat)) = ((fun i => some (k + i)) ∘ Nat.succ) := by
      funext i
      simp only [Function.comp, Nat.succ_eq_add_one, Option.some.injEq]
      omega
    simp only [assignRanksFrom, List.map_cons, ih (k + 1), List.length_cons,
      List.range_succ_eq_map, List.map_map, hfun]
    simp

theorem assignRanks_map_stripRank : ∀ (l : List Candidate) (k : Nat),
    (assignRanksFrom k l).map stripRank = l.map stripRank := by
  intro l
  induction l with
  | nil => intro k; rfl
  | cons a t ih =>
    intro k
    simp only [assignRanksFrom, List.map_cons, ih]
    try rfl

theorem retagFrom_map_stripIdx : ∀ (l : List Candidate) (j : Nat),
    (retagFrom j l).map stripIdx = l.map stripIdx := by
  intro l
  induction l with
  | nil => intro j; rfl
  | cons a t ih =>
    intro j
    simp only [retagFrom, List.map_cons, ih]
    try rfl

theorem assignRanks_retag_assign : ∀ (x : List Candidate) (k j : Nat),
    assignRanksFrom k (retagFrom j (assignRanksFrom k x)) =
      retagFrom j (assignRanksFrom k x) := by
  intro x
  induction x with
  | nil => intro k j; rfl
  | cons a t ih =>
    intro k j
    simp only [assignRanksFrom, retagFrom, ih]
    try rfl

theorem rankRel_imp_key (a b : Candidate) (h : rankRel a b) : keyOf b ≤ keyOf a := by
  rcases h with h1 | ⟨h1, _⟩
  · exact le_of_lt h1
  · exact le_of_eq h1.symm

theorem rankRel_imp_stable (a b : Candidate) (h : rankRel a b) :
    keyOf a = keyOf b → idxOf a ≤ idxOf b := by
  intro he
  rcases h with h1 | ⟨_, h2⟩
  · exact absurd h1 (by rw [he]; exact lt_irrefl _)
  · exact h2

theorem rank_resumes_ok (l : List Candidate) (hne : l ≠ []) :
    rank_resumes l = Except.ok (assignRanksFrom 1 (List.insertionSort rankRel (tagFrom 0 l))) := by
  have hlen : (assignRanksFrom 1 (List.insertionSort rankRel (tagFrom 0 l))).length = l.length := by
    rw [assignRanksFrom_length, (List.perm_insertionSort rankRel (tagFrom 0 l)).length_eq,
      tagFrom_length]
  unfold rank_resumes
  dsimp only []
  cases hx : assignRanksFrom 1 (List.insertionSort rankRel (tagFrom 0 l)) with
  | nil =>
    rw [hx] at hlen
    exact absurd (List.length_eq_zero.mp hlen.symm) hne
  | cons c t => rfl

/-- C5.  For every non-empty batch, `rank_resumes` returns a list that is sorted
descending by composite score; candidates with equal scores keep their original
input order (`original_index` increasing among ties); ranks are assigned 1-based in
sorted order; the output is a permutation of the tagged input; re-ranking the output
reproduces the identical order (only `original_index` is renumbered); and the
`[90, 70, 90]` example ranks as idx0, idx2, idx1.  (The `rank_resumes` of the empty
list raises `IndexError`, see the counterexample; hence the non-emptiness
hypothesis.) -/
theorem C5_ranking_props :
    (∀ l : List Candidate, l ≠ [] →
      ∃ out, rank_resumes l = Except.ok out ∧
        out.length = l.length ∧
        List.Pairwise (fun a b => keyOf b ≤ keyOf a) out ∧
        List.Pairwise (fun a b => keyOf a = keyOf b → idxOf a ≤ idxOf b) out ∧
        out.map (fun c => c.rank) = (List.range out.length).map (fun i => some (i + 1)) ∧
        List.Perm (out.map stripRank) ((tagFrom 0 l).map stripRank) ∧
        rank_resumes out = Except.ok (retagFrom 0 out) ∧
        (retagFrom 0 out).map stripIdx = out.map stripIdx) ∧
    rank_resumes rankExample = Except.ok rankExampleOut := by
  constructor
  · intro l hne
    have hperm := List.perm_insertionSort rankRel (tagFrom 0 l)
    have hsorted_pw : List.Pairwise rankRel (List.insertionSort rankRel (tagFrom 0 l)) :=
      List.sorted_insertionSort rankRel (tagFrom 0 l)
    have hlen : (assignRanksFrom 1 (List.insertionSort rankRel (tagFrom 0 l))).length = l.length := by
      rw [assignRanksFrom_length, hperm.length_eq, tagFrom_length]
    have hkey_pw : List.Pairwise (fun a b => keyOf b ≤ keyOf a)
        (assignRanksFrom 1 (List.insertionSort rankRel (tagFrom 0 l))) :=
      assignRanks_pairwise (fun _ _ _ _ h => h) _ 1
        (hsorted_pw.imp (fun h => rankRel_imp_key _ _ h))
    refine ⟨assignRanksFrom 1 (List.insertionSort rankRel (tagFrom 0 l)),
      rank_resumes_ok l hne, hlen, hkey_pw, ?_, ?_, ?_, ?_, ?_⟩
    · exact assignRanks_pairwise (fun _ _ _ _ h => h) _ 1
        (hsorted_pw.imp (fun h => rankRel_imp_stable _ _ h))
    · rw [assignRanks_map_rank, assignRanksFrom_length]
      exact List.map_congr_left (fun i _ => by rw [Nat.add_comm])
    · rw [assignRanks_map_stripRank]
      exact hperm.map stripRank
    · have htag : ∀ c ∈ assignRanksFrom 1 (List.insertionSort rankRel (tagFrom 0 l)),
          c.composite_score = some (calculate_composite_score c) := ranked_tagged l
      have h2 : tagFrom 0 (assignRanksFrom 1 (List.insertionSort rankRel (tagFrom 0 l))) =
          retagFrom 0 (assignRanksFrom 1 (List.insertionSort rankRel (tagFrom 0 l))) :=
        tagFrom_eq_retagFrom _ 0 htag
      have h3 : List.Pairwise rankRel
          (retagFrom 0 (assignRanksFrom 1 (List.insertionSort rankRel (tagFrom 0 l)))) :=
        retagFrom_pairwise _ 0 hkey_pw
      have h4 : List.insertionSort rankRel
          (retagFrom 0 (assignRanksFrom 1 (List.insertionSort rankRel (tagFrom 0 l)))) =
          retagFrom 0 (assignRanksFrom 1 (List.insertionSort rankRel (tagFrom 0 l))) :=
        List.Sorted.insertionSort_eq h3
      have h5 : assignRanksFrom 1
          (retagFrom 0 (assignRanksFrom 1 (List.insertionSort rankRel (tagFrom 0 l)))) =
          retagFrom 0 (assignRanksFrom 1 (List.insertionSort rankRel (tagFrom 0 l))) :=
        assignRanks_retag_assign _ 1 0
      have hne2 : assignRanksFrom 1 (List.insertionSort rankRel (tagFrom 0 l)) ≠ [] := by
        intro h0
        rw [h0] at hlen
        exact hne (List.length_eq_zero.mp hlen.symm)
      rw [rank_resumes_ok _ hne2, h2, h4, h5]
    · exact retagFrom_map_stripIdx _ 0
  · rw [rank_resumes_ok rankExample (by simp [rankExample])]
    exact congrArg Except.ok (by decide)

/-- Witness for C5: the theorem applied to a concrete singleton batch. -/
theorem C5_ranking_props_witness :
    ∃ out, rank_resumes [({} : Candidate)] = Except.ok out ∧ out.length = 1 := by
  obtain ⟨out, h1, h2, _⟩ := C5_ranking_props.1 [({} : Candidate)] (by simp)
  exact ⟨out, h1, h2⟩

/-- Counterexample for C5 as frozen ("for every input list"): on the empty list the
closing log statement of `rank_resumes` indexes `ranked[0]` and raises `IndexError`
instead of returning a ranking. -/
theorem C5_empty_list_raises :
    rank_resumes ([] : List Candidate) =
      Except.error "IndexError: list index out of range" := rfl
